import Mathlib

/-!
Verification development for the rl4ut3 self-play value-training harness
(src/train.py and src/value_train.py).  The two Python files are near
duplicates; definitions below are shallow embeddings of the shared code,
with line references into src/train.py (and src/value_train.py where the
variants differ).  Values computed by the torch model are embedded as exact
rationals; the external Game adapter and the player objects are embedded as
explicit operation records, and the unbounded game loops are embedded with
an explicit fuel parameter (none = the loop did not terminate within fuel).
-/

namespace RL4UT3

/-- Interface of the external Game adapter (src/train.py imports `game.Game`).
The fields mirror the methods called by train.py: `get_state`, `get_symmetries`,
`execute_move` (state mutation made explicit), `is_over` (returns the terminal
value, with Python falsiness encoded as the rational 0 meaning "not over"),
and `flip`. -/
structure GameOps (γ σ α : Type) where
  get_state : γ → σ
  get_symmetries : γ → List σ
  execute_move : γ → α → γ
  is_over : γ → ℚ
  flip : γ → γ

/-- Interface of the player objects used by `self_play`: the duck-typed
method `get_action_and_value(game, epsilon)` and the value model
`player.model` applied to an encoded state. -/
structure PlayerOps (γ σ α : Type) where
  get_action_and_value : γ → ℚ → α × ℚ
  model : σ → ℚ

/-- src/train.py line 23 (src/value_train.py line 24): the bootstrapped
target `value = value + alpha * (v_prime - value)`.  Note the Python code
overwrites the variable `value` with this blended quantity. -/
def bootTarget (alpha value v_prime : ℚ) : ℚ :=
  value + alpha * (v_prime - value)

/-- src/train.py lines 24-25: the pre-move emission of one ply of
`self_play`: `data += [(s, value) for s in game.get_symmetries()]` followed
by `data += [(-s, 1-value) for s in game.get_symmetries()]`, where the
Python variable `value` holds the bootstrapped target at this point. -/
def preMoveEmit {σ : Type} [Neg σ] (syms : List σ) (t : ℚ) : List (σ × ℚ) :=
  syms.map (fun s => (s, t)) ++ syms.map (fun s => (-s, 1 - t))

/-- src/train.py lines 32-33: the terminal emission of `self_play`:
`data += [(s, end_value) for s in game.get_symmetries()]` followed by
`data += [(-s, 1-value) for s in game.get_symmetries()]`, where `value`
still holds the bootstrapped target of the final pre-move step. -/
def terminalEmit {σ : Type} [Neg σ] (syms : List σ) (ev t : ℚ) : List (σ × ℚ) :=
  syms.map (fun s => (s, ev)) ++ syms.map (fun s => (-s, 1 - t))

/-- src/train.py lines 16-37: the per-game loop of `self_play`.  Fuel bounds
the number of plies; the Python loop `for m in count()` has no such bound,
so a trajectory that does not terminate within the given fuel is embedded
as `none`. -/
def selfPlayGame {γ σ α : Type} [Neg σ] (G : GameOps γ σ α) (P : PlayerOps γ σ α)
    (alpha epsilon : ℚ) : ℕ → γ → Option (List (σ × ℚ))
  | 0, _ => none
  | fuel + 1, g =>
    let av := P.get_action_and_value g epsilon
    let value := P.model (G.get_state g)
    let target := bootTarget alpha value av.2
    let pre := preMoveEmit (G.get_symmetries g) target
    let g2 := G.execute_move g av.1
    let ev := G.is_over g2
    if ev ≠ 0 then
      some (pre ++ terminalEmit (G.get_symmetries g2) ev target)
    else
      (selfPlayGame G P alpha epsilon fuel (G.flip g2)).map (fun rest => pre ++ rest)

/-- Number of plies played by the per-game loop of `self_play` (the number
of iterations of the loop at src/train.py lines 16-37, counting the final,
terminal ply). -/
def selfPlayPlies {γ σ α : Type} [Neg σ] (G : GameOps γ σ α) (P : PlayerOps γ σ α)
    (alpha epsilon : ℚ) : ℕ → γ → Option ℕ
  | 0, _ => none
  | fuel + 1, g =>
    let av := P.get_action_and_value g epsilon
    let g2 := G.execute_move g av.1
    let ev := G.is_over g2
    if ev ≠ 0 then some 1
    else (selfPlayPlies G P alpha epsilon fuel (G.flip g2)).map (fun p => p + 1)

/-- src/train.py lines 10-38: `self_play(player, games, alpha, epsilon)`.
Each game starts from a fresh `Game()`, embedded as the fixed initial state
`g0`; the emitted examples of all games are concatenated into `data`. -/
def self_play {γ σ α : Type} [Neg σ] (G : GameOps γ σ α) (P : PlayerOps γ σ α)
    (games : ℕ) (alpha epsilon : ℚ) (fuel : ℕ) (g0 : γ) : Option (List (σ × ℚ)) :=
  (List.range games).foldl
    (fun acc _ =>
      match acc, selfPlayGame G P alpha epsilon fuel g0 with
      | some d, some d2 => some (d ++ d2)
      | _, _ => none)
    (some [])

/-- Concrete single-ply stub game used by the scenario of §8 of the spec:
states are ply counters, every move advances the counter, state 0 is live
and every later state is terminal with terminal value 1, and every state
has a symmetry set of size 2 (encodings are distinct integers). -/
def stubGame : GameOps ℕ ℤ Unit where
  get_state := fun g => Int.ofNat g
  get_symmetries := fun g => [Int.ofNat (2 * g) + 1, Int.ofNat (2 * g) + 2]
  execute_move := fun g _ => g + 1
  is_over := fun g => if g = 0 then 0 else 1
  flip := fun g => g

/-- Concrete stub player: always returns the unique action with look-ahead
estimate 1, and a model that estimates every state at 1/2. -/
def stubPlayer : PlayerOps ℕ ℤ Unit where
  get_action_and_value := fun _ _ => ((), 1)
  model := fun _ => (1 : ℚ) / 2

/-- The data emitted for the stub scenario: alpha = 1/5, epsilon = 0, one
game of one ply; value = 1/2, v_prime = 1, target = 3/5. -/
def stubScenarioData : List (ℤ × ℚ) :=
  [(1, 3/5), (2, 3/5), (-1, 2/5), (-2, 2/5), (3, 1), (4, 1), (-3, 2/5), (-4, 2/5)]

/-- Evaluation of the stub scenario: one game, alpha = 1/5, epsilon = 0,
one ply into a terminal state of value 1, symmetry sets of size 2. -/
theorem stub_run : selfPlayGame stubGame stubPlayer (1/5) 0 1 0 = some stubScenarioData := by
  show selfPlayGame stubGame stubPlayer (1/5) 0 (0 + 1) 0 = some stubScenarioData
  unfold selfPlayGame
  norm_num [stubGame, stubPlayer, bootTarget, preMoveEmit, terminalEmit, stubScenarioData]

/-- Unfolding shape of one successful step of the per-game loop: the output
starts with the pre-move emission of the current state. -/
theorem selfPlayGame_some_shape {γ σ α : Type} [Neg σ] (G : GameOps γ σ α)
    (P : PlayerOps γ σ α) (alpha epsilon : ℚ) (fuel : ℕ) (g : γ) (d : List (σ × ℚ))
    (h : selfPlayGame G P alpha epsilon (fuel + 1) g = some d) :
    ∃ rest, d = preMoveEmit (G.get_symmetries g)
      (bootTarget alpha (P.model (G.get_state g)) (P.get_action_and_value g epsilon).2) ++ rest := by
  unfold selfPlayGame at h
  by_cases hev : G.is_over (G.execute_move g (P.get_action_and_value g epsilon).1) ≠ 0
  · rw [if_pos hev] at h
    exact ⟨_, (Option.some_inj.mp h).symm⟩
  · rw [if_neg hev] at h
    cases hr : selfPlayGame G P alpha epsilon fuel
        (G.flip (G.execute_move g (P.get_action_and_value g epsilon).1)) with
    | none => rw [hr] at h; simp at h
    | some r =>
      rw [hr] at h
      exact ⟨r, (Option.some_inj.mp h).symm⟩

/-- Claim C1: In self_play, the bootstrapped target computed at every ply
equals value + alpha * (v_prime - value), where value is the model estimate
of the current pre-move state and v_prime is the look-ahead estimate of the
player; in particular alpha = 0 gives target = value, alpha = 1 gives
target = v_prime, and alpha = 1/2 gives target = (value + v_prime)/2. -/
theorem C1_bootstrap_target (alpha value v_prime : ℚ) :
    bootTarget alpha value v_prime = value + alpha * (v_prime - value) ∧
    bootTarget 0 value v_prime = value ∧
    bootTarget 1 value v_prime = v_prime ∧
    bootTarget (1/2) value v_prime = (value + v_prime) / 2 := by
  refine ⟨rfl, ?_, ?_, ?_⟩ <;> unfold bootTarget <;> ring

/-- Claim C2: every pre-move step of the self_play game loop appends exactly
2m training examples, where m is the size of the symmetry set of the current
state: first the m examples (s, target), then the m examples (-s, 1 - target),
in that order. -/
theorem C2_premove_emission {γ σ α : Type} [Neg σ] (G : GameOps γ σ α)
    (P : PlayerOps γ σ α) (alpha epsilon : ℚ) (fuel : ℕ) (g : γ) (d : List (σ × ℚ))
    (h : selfPlayGame G P alpha epsilon (fuel + 1) g = some d) :
    2 * (G.get_symmetries g).length ≤ d.length ∧
    d.take (2 * (G.get_symmetries g).length) =
      (G.get_symmetries g).map
        (fun s => (s, bootTarget alpha (P.model (G.get_state g)) (P.get_action_and_value g epsilon).2)) ++
      (G.get_symmetries g).map
        (fun s => (-s, 1 - bootTarget alpha (P.model (G.get_state g)) (P.get_action_and_value g epsilon).2)) := by
  obtain ⟨rest, hd⟩ := selfPlayGame_some_shape G P alpha epsilon fuel g d h
  have hlen : (preMoveEmit (G.get_symmetries g)
      (bootTarget alpha (P.model (G.get_state g)) (P.get_action_and_value g epsilon).2)).length =
      2 * (G.get_symmetries g).length := by
    unfold preMoveEmit
    rw [List.length_append, List.length_map, List.length_map]
    ring
  constructor
  · rw [hd, List.length_append, hlen]
    omega
  · rw [hd, ← hlen, List.take_left]
    rfl

/-- Witness for C2 at the concrete stub scenario. -/
theorem C2_premove_emission_witness :
    2 * (stubGame.get_symmetries 0).length ≤ stubScenarioData.length ∧
    stubScenarioData.take (2 * (stubGame.get_symmetries 0).length) =
      (stubGame.get_symmetries 0).map
        (fun s => (s, bootTarget (1/5) (stubPlayer.model (stubGame.get_state 0)) (stubPlayer.get_action_and_value 0 0).2)) ++
      (stubGame.get_symmetries 0).map
        (fun s => (-s, 1 - bootTarget (1/5) (stubPlayer.model (stubGame.get_state 0)) (stubPlayer.get_action_and_value 0 0).2)) :=
  C2_premove_emission stubGame stubPlayer (1/5) 0 0 0 stubScenarioData stub_run

/-- Claim C3, counterexample to the claim as stated.  In the concrete
scenario of the claim (alpha = 1/5, epsilon = 0, one ply into a terminal
state of value 1, symmetry-set size 2, pre-move model estimate value = 1/2,
look-ahead v_prime = 1), self_play returns 8 examples, but the complement
carried by the terminal opponent-perspective examples is
1 - target = 2/5 (the Python variable `value` holds the bootstrapped target
after line 23 of src/train.py), which differs from 1 - value = 1/2 claimed
for the raw pre-move estimate value = 1/2. -/
theorem C3_counterexample :
    self_play stubGame stubPlayer 1 (1/5) 0 1 0 = some stubScenarioData ∧
    stubScenarioData.length = 8 ∧
    stubScenarioData[6]? = some (-3, 2/5) ∧
    stubScenarioData[7]? = some (-4, 2/5) ∧
    (2/5 : ℚ) = 1 - bootTarget (1/5) (stubPlayer.model (stubGame.get_state 0))
        (stubPlayer.get_action_and_value 0 0).2 ∧
    (2/5 : ℚ) ≠ 1 - stubPlayer.model (stubGame.get_state 0) := by
  refine ⟨?_, rfl, rfl, rfl, ?_, ?_⟩
  · show (List.range 1).foldl _ (some []) = some stubScenarioData
    rw [List.range_succ, List.range_zero, List.nil_append]
    simp only [List.foldl_cons, List.foldl_nil, stub_run]
    rfl
  · norm_num [bootTarget, stubPlayer, stubGame]
  · norm_num [stubPlayer, stubGame]

/-- Claim C3 (amended): on the ply that reaches a terminal state, self_play
additionally emits, for every symmetry s of the post-move state,
(s, terminal_value) and (-s, 1 - target), where target is the bootstrapped
pre-move target value + alpha * (v_prime - value) held by the Python
variable `value` after line 23 (not the raw pre-move model estimate); and a
game of p plies with symmetry-set size m yields exactly p*2m + 2m examples. -/
theorem C3_terminal_emission {γ σ α : Type} [Neg σ] (G : GameOps γ σ α)
    (P : PlayerOps γ σ α) (alpha epsilon : ℚ) :
    (∀ (fuel : ℕ) (g : γ),
      G.is_over (G.execute_move g (P.get_action_and_value g epsilon).1) ≠ 0 →
      selfPlayGame G P alpha epsilon (fuel + 1) g =
        some (preMoveEmit (G.get_symmetries g)
            (bootTarget alpha (P.model (G.get_state g)) (P.get_action_and_value g epsilon).2) ++
          terminalEmit (G.get_symmetries (G.execute_move g (P.get_action_and_value g epsilon).1))
            (G.is_over (G.execute_move g (P.get_action_and_value g epsilon).1))
            (bootTarget alpha (P.model (G.get_state g)) (P.get_action_and_value g epsilon).2))) ∧
    (∀ (m : ℕ), (∀ g' : γ, (G.get_symmetries g').length = m) →
      ∀ (fuel : ℕ) (g : γ) (d : List (σ × ℚ)) (p : ℕ),
        selfPlayGame G P alpha epsilon fuel g = some d →
        selfPlayPlies G P alpha epsilon fuel g = some p →
        d.length = p * (2 * m) + 2 * m) := by
  constructor
  · intro fuel g hev
    unfold selfPlayGame
    rw [if_pos hev]
  · intro m hm fuel
    induction fuel with
    | zero =>
      intro g d p hd hp
      simp [selfPlayGame] at hd
    | succ fuel ih =>
      intro g d p hd hp
      unfold selfPlayGame at hd
      unfold selfPlayPlies at hp
      by_cases hev : G.is_over (G.execute_move g (P.get_action_and_value g epsilon).1) ≠ 0
      · rw [if_pos hev] at hd hp
        have hd2 := Option.some_inj.mp hd
        have hp2 := Option.some_inj.mp hp
        rw [← hd2, ← hp2, List.length_append]
        unfold preMoveEmit terminalEmit
        rw [List.length_append, List.length_append, List.length_map, List.length_map,
          List.length_map, List.length_map, hm, hm]
        ring
      · rw [if_neg hev] at hd hp
        cases hr : selfPlayGame G P alpha epsilon fuel
            (G.flip (G.execute_move g (P.get_action_and_value g epsilon).1)) with
        | none => rw [hr] at hd; simp at hd
        | some rest =>
          cases hq : selfPlayPlies G P alpha epsilon fuel
              (G.flip (G.execute_move g (P.get_action_and_value g epsilon).1)) with
          | none => rw [hq] at hp; simp at hp
          | some q =>
            rw [hr] at hd
            rw [hq] at hp
            have hd2 := Option.some_inj.mp hd
            have hp2 := Option.some_inj.mp hp
            have hrec := ih _ rest q hr hq
            rw [← hd2, ← hp2, List.length_append]
            unfold preMoveEmit
            rw [List.length_append, List.length_map, List.length_map, hm, hrec]
            ring

/-- Witness for C3 (amended) at the concrete stub scenario. -/
theorem C3_terminal_emission_witness :
    selfPlayGame stubGame stubPlayer (1/5) 0 (0 + 1) 0 =
      some (preMoveEmit (stubGame.get_symmetries 0)
          (bootTarget (1/5) (stubPlayer.model (stubGame.get_state 0))
            (stubPlayer.get_action_and_value 0 0).2) ++
        terminalEmit (stubGame.get_symmetries (stubGame.execute_move 0 (stubPlayer.get_action_and_value 0 0).1))
          (stubGame.is_over (stubGame.execute_move 0 (stubPlayer.get_action_and_value 0 0).1))
          (bootTarget (1/5) (stubPlayer.model (stubGame.get_state 0))
            (stubPlayer.get_action_and_value 0 0).2)) :=
  (C3_terminal_emission stubGame stubPlayer (1/5) 0).1 0 0 (by norm_num [stubGame, stubPlayer])

/-- The last k elements of a list, in their original order (the Python
slice `l[-k:]` for k ≥ 1). -/
def lastK {τ : Type} (k : ℕ) (l : List τ) : List τ :=
  l.drop (l.length - k)

/-- src/train.py line 145 (src/value_train.py line 122): the replay-buffer
update `data = (data + new_data)[-data_limit:] if data_limit else new_data`.
A data_limit of None or 0 is Python-falsy and selects the else branch. -/
def bufferUpdate {τ : Type} (data_limit : Option ℕ) (data new_data : List τ) : List τ :=
  match data_limit with
  | none => new_data
  | some k => if k = 0 then new_data else lastK k (data ++ new_data)

/-- The buffer after a run of iterations, starting from the empty buffer of
src/train.py line 128 and applying the line-145 update once per iteration
with that iteration's self-play output. -/
def bufferRun {τ : Type} (data_limit : Option ℕ) (chunks : List (List τ)) : List τ :=
  chunks.foldl (bufferUpdate data_limit) []

theorem lastK_length_le {τ : Type} (k : ℕ) (l : List τ) : (lastK k l).length ≤ k := by
  unfold lastK
  rw [List.length_drop]
  omega

theorem lastK_append_left {τ : Type} (k : ℕ) (a c : List τ) :
    lastK k (lastK k a ++ c) = lastK k (a ++ c) := by
  unfold lastK
  simp only [List.length_append, List.length_drop]
  rw [List.drop_append_eq_append_drop, List.drop_append_eq_append_drop, List.drop_drop]
  simp only [List.length_drop]
  congr 1
  · congr 1
    omega
  · congr 1
    omega

theorem bufferRun_some_eq_lastK {τ : Type} (k : ℕ) (hk : k ≠ 0) :
    ∀ (chunks : List (List τ)) (a : List τ),
      chunks.foldl (bufferUpdate (some k)) (lastK k a) = lastK k (a ++ chunks.flatten) := by
  intro chunks
  induction chunks with
  | nil => intro a; simp [lastK]
  | cons c cs ih =>
    intro a
    rw [List.foldl_cons]
    have hstep : bufferUpdate (some k) (lastK k a) c = lastK k (a ++ c) := by
      show (if k = 0 then c else lastK k (lastK k a ++ c)) = lastK k (a ++ c)
      rw [if_neg hk, lastK_append_left]
    rw [hstep]
    have := ih (a ++ c)
    rw [this, List.flatten_cons, List.append_assoc]

/-- Claim C4, counterexample to the claim as stated.  With no capacity
configured (data_limit = None, as in both source files), the buffer after
two iterations producing [0] and then [1] is [1]: the accumulated history
[0, 1] is discarded, because the Python else branch assigns
`data = new_data` rather than `data = data + new_data`. -/
theorem C4_counterexample :
    bufferRun (none : Option ℕ) [[0], [1]] = [1] ∧ ([1] : List ℕ) ≠ [0, 1] := by
  constructor
  · rfl
  · decide

/-- Claim C4 (amended): if a capacity K ≥ 1 is configured, after every
iteration the buffer equals the last min(K, total) examples of the
concatenated history, in original relative order, and its length is at most
K; if no capacity is configured (the Python-falsy data_limit = None of both
source files), after every iteration the buffer holds only the examples of
the most recent iteration, not the accumulated history. -/
theorem C4_buffer_policy {τ : Type} :
    (∀ (k : ℕ), 1 ≤ k → ∀ chunks : List (List τ),
      bufferRun (some k) chunks = lastK k chunks.flatten ∧
      (bufferRun (some k) chunks).length ≤ k) ∧
    (∀ chunks : List (List τ), bufferRun (none : Option ℕ) chunks = chunks.getLastD []) := by
  constructor
  · intro k hk chunks
    have h0 : (lastK k ([] : List τ)) = [] := by simp [lastK]
    have h := bufferRun_some_eq_lastK k (by omega) chunks ([] : List τ)
    rw [h0, List.nil_append] at h
    refine ⟨h, ?_⟩
    show (chunks.foldl (bufferUpdate (some k)) []).length ≤ k
    rw [h]
    exact lastK_length_le k _
  · intro chunks
    show chunks.foldl (bufferUpdate none) [] = chunks.getLastD []
    have : ∀ (l : List (List τ)) (i : List τ), l.foldl (bufferUpdate none) i = l.getLastD i := by
      intro l
      induction l with
      | nil => intro i; rfl
      | cons c cs ih => intro i; rw [List.foldl_cons, List.getLastD_cons]; exact ih c
    exact this chunks []

/-- Witness for C4 (amended) at a concrete capacity and stream. -/
theorem C4_buffer_policy_witness :
    (bufferRun (some 2) [[0], [1], [2]] = lastK 2 ([[0], [1], [2]] : List (List ℕ)).flatten ∧
      (bufferRun (some 2) [[0], [1], [2]] : List ℕ).length ≤ 2) ∧
    bufferRun (none : Option ℕ) [[0], [1], [2]] = ([[0], [1], [2]] : List (List ℕ)).getLastD [] :=
  ⟨(C4_buffer_policy.1 2 (by decide) [[0], [1], [2]]),
    C4_buffer_policy.2 [[0], [1], [2]]⟩

/-- src/train.py line 124 (src/value_train.py line 99): the initial value
of best_score is the triple (0, 0, 0). -/
def initBest : ℕ × ℕ × ℕ := (0, 0, 0)

/-- src/train.py line 137 (src/value_train.py line 112): the comparison
`score > best_score`, which is Python lexicographic comparison of the
(wins, draws, losses) tuples: first wins, then draws, then losses, each
compared with strictly-greater. -/
def scoreGt (a b : ℕ × ℕ × ℕ) : Prop :=
  b.1 < a.1 ∨ (a.1 = b.1 ∧ (b.2.1 < a.2.1 ∨ (a.2.1 = b.2.1 ∧ b.2.2 < a.2.2)))

instance (a b : ℕ × ℕ × ℕ) : Decidable (scoreGt a b) := by
  unfold scoreGt
  exact inferInstance

/-- Modelled from the spec: the promotion criterion as the claim states it,
strictly more wins, or equal wins and strictly fewer losses. -/
def specImprove (a b : ℕ × ℕ × ℕ) : Prop :=
  b.1 < a.1 ∨ (a.1 = b.1 ∧ a.2.2 < b.2.2)

instance (a b : ℕ × ℕ × ℕ) : Decidable (specImprove a b) := by
  unfold specImprove
  exact inferInstance

/-- Claim C5, counterexample to the claim as stated.  Against the initial
best_score (0, 0, 0) of line 124, the evaluation score (0, 0, 100) — zero
wins, one hundred losses — is promoted by the code comparison
`score > best_score` (equal wins, equal draws, more losses wins the Python
tuple comparison), while the claimed criterion (strictly more wins, or equal
wins and strictly fewer losses) rejects it. -/
theorem C5_counterexample :
    scoreGt (0, 0, 100) initBest ∧ ¬ specImprove (0, 0, 100) initBest := by
  decide

/-- Claim C5 (amended): the promotion comparison is Python lexicographic
order on the full (wins, draws, losses) tuple; restricted to two scores
with the same total number of games — as holds for any two scores produced
by the fixed-size evaluation — it coincides exactly with: strictly more
wins, or equal wins and strictly fewer losses. -/
theorem C5_promotion_comparator (a b : ℕ × ℕ × ℕ)
    (h : a.1 + a.2.1 + a.2.2 = b.1 + b.2.1 + b.2.2) :
    scoreGt a b ↔ specImprove a b := by
  obtain ⟨wa, da, la⟩ := a
  obtain ⟨wb, db, lb⟩ := b
  simp only [scoreGt, specImprove] at h ⊢
  omega

/-- Witness for C5 (amended) at a concrete pair of equal-total scores. -/
theorem C5_promotion_comparator_witness :
    scoreGt (3, 1, 1) (2, 2, 1) ↔ specImprove (3, 1, 1) (2, 2, 1) :=
  C5_promotion_comparator (3, 1, 1) (2, 2, 1) (by decide)

/-- The two player slots of `compare` in src/train.py line 40 (player_i and
player_j), embedded positionally, which makes the distinctness of the two
player objects — assumed by the claim, and needed by the identity-keyed
score dictionary of line 41 — structural. -/
inductive Side
  | A
  | B
deriving DecidableEq

/-- src/train.py line 62: `player = player_j if player is player_i else player_i`. -/
def Side.other : Side → Side
  | Side.A => Side.B
  | Side.B => Side.A

/-- src/train.py line 47: the starting player of game n,
`player_i if n < games/2 else player_j`, with Python true (rational)
division. -/
def starterOf (n games : ℕ) : Side :=
  if (n : ℚ) < (games : ℚ) / 2 then Side.A else Side.B

/-- src/train.py lines 49-62: the per-game loop of `compare`.  The current
player moves, the game is checked for termination (lines 55-59: the winner
is the player who just moved when the terminal value equals 1, nobody
otherwise), then the perspective flips and the players swap.  Fuel bounds
the unbounded `for m in count()` loop. -/
def compareGameLoop {γ σ α : Type} (G : GameOps γ σ α) (pa pb : γ → α) :
    ℕ → Side → γ → Option (Option Side)
  | 0, _, _ => none
  | fuel + 1, turn, g =>
    let act := (match turn with | Side.A => pa | Side.B => pb) g
    let g2 := G.execute_move g act
    let ev := G.is_over g2
    if ev ≠ 0 then some (if ev = 1 then some turn else none)
    else compareGameLoop G pa pb fuel turn.other (G.flip g2)

/-- src/train.py lines 41 and 58: one increment of the score dictionary
`{player_i: 0, player_j: 0, None: 0}`, read out as the returned triple
(score of player_i, draws, score of player_j) of line 64. -/
def addResult (s : ℕ × ℕ × ℕ) : Option Side → ℕ × ℕ × ℕ
  | some Side.A => (s.1 + 1, s.2.1, s.2.2)
  | none => (s.1, s.2.1 + 1, s.2.2)
  | some Side.B => (s.1, s.2.1, s.2.2 + 1)

/-- src/train.py lines 40-64: `compare(player_i, player_j, games)`.  Each
game starts from a fresh `Game()` (the fixed initial state g0); a game that
does not terminate within fuel plies makes the whole run `none`. -/
def compareRun {γ σ α : Type} (G : GameOps γ σ α) (pa pb : γ → α)
    (games fuel : ℕ) (g0 : γ) : Option (ℕ × ℕ × ℕ) :=
  (List.range games).foldl
    (fun acc n =>
      match acc with
      | none => none
      | some s =>
        match compareGameLoop G pa pb fuel (starterOf n games) g0 with
        | none => none
        | some r => some (addResult s r))
    (some (0, 0, 0))

theorem addResult_sum (s : ℕ × ℕ × ℕ) (r : Option Side) :
    (addResult s r).1 + (addResult s r).2.1 + (addResult s r).2.2 =
      s.1 + s.2.1 + s.2.2 + 1 := by
  cases r with
  | none => simp [addResult]; omega
  | some t => cases t <;> simp [addResult] <;> omega

theorem compare_foldl_none {γ σ α : Type} (G : GameOps γ σ α) (pa pb : γ → α)
    (games fuel : ℕ) (g0 : γ) :
    ∀ l : List ℕ,
      l.foldl (fun acc n =>
        match acc with
        | none => none
        | some s =>
          match compareGameLoop G pa pb fuel (starterOf n games) g0 with
          | none => none
          | some r => some (addResult s r)) none = none := by
  intro l
  induction l with
  | nil => rfl
  | cons n l ih => rw [List.foldl_cons]; exact ih

theorem compare_foldl_sum {γ σ α : Type} (G : GameOps γ σ α) (pa pb : γ → α)
    (games fuel : ℕ) (g0 : γ) :
    ∀ (l : List ℕ) (s0 s : ℕ × ℕ × ℕ),
      l.foldl (fun acc n =>
        match acc with
        | none => none
        | some t =>
          match compareGameLoop G pa pb fuel (starterOf n games) g0 with
          | none => none
          | some r => some (addResult t r)) (some s0) = some s →
      s.1 + s.2.1 + s.2.2 = s0.1 + s0.2.1 + s0.2.2 + l.length := by
  intro l
  induction l with
  | nil =>
    intro s0 s h
    rw [List.foldl_nil] at h
    rw [← Option.some_inj.mp h]
    simp
  | cons n l ih =>
    intro s0 s h
    rw [List.foldl_cons] at h
    dsimp only at h
    cases hr : compareGameLoop G pa pb fuel (starterOf n games) g0 with
    | none =>
      rw [hr] at h
      rw [compare_foldl_none] at h
      exact absurd h (by simp)
    | some r =>
      rw [hr] at h
      have := ih (addResult s0 r) s h
      rw [this, addResult_sum, List.length_cons]
      ring

theorem starterOf_cond (n games : ℕ) :
    ((n : ℚ) < (games : ℚ) / 2) ↔ 2 * n < games := by
  rw [lt_div_iff₀ (by norm_num : (0:ℚ) < 2)]
  have h2 : (n : ℚ) * 2 = ((2 * n : ℕ) : ℚ) := by push_cast; ring
  rw [h2, Nat.cast_lt]

theorem starterOf_eq (n games : ℕ) :
    starterOf n games = if 2 * n < games then Side.A else Side.B := by
  unfold starterOf
  exact if_congr (starterOf_cond n games) rfl rfl

theorem countP_range_lt (c : ℕ) :
    ∀ N : ℕ, (List.range N).countP (fun n => decide (n < c)) = min c N := by
  intro N
  induction N with
  | zero => simp
  | succ N ih =>
    rw [List.range_succ, List.countP_append, ih]
    by_cases h : N < c
    · simp [h]
      omega
    · simp [h]
      omega

theorem countP_not_add {β : Type} (p : β → Bool) :
    ∀ l : List β, l.countP p + l.countP (fun a => !(p a)) = l.length := by
  intro l
  induction l with
  | nil => rfl
  | cons a l ih =>
    rw [List.countP_cons, List.countP_cons, List.length_cons]
    cases h : p a <;> simp [h] <;> omega

/-- Claim C6: for every number of games N, a compare run that returns a
score triple satisfies wins_a + draws + wins_b = N exactly; player_a is the
starting player of game n if and only if n < N/2 (equivalently 2n < N), so
the starts split as ceil(N/2) games for player_a and floor(N/2) games for
player_b. -/
theorem C6_compare {γ σ α : Type} (G : GameOps γ σ α) (pa pb : γ → α)
    (games fuel : ℕ) (g0 : γ) :
    (∀ s : ℕ × ℕ × ℕ, compareRun G pa pb games fuel g0 = some s →
      s.1 + s.2.1 + s.2.2 = games) ∧
    (∀ n : ℕ, starterOf n games = Side.A ↔ 2 * n < games) ∧
    (List.range games).countP (fun n => decide (starterOf n games = Side.A)) = (games + 1) / 2 ∧
    (List.range games).countP (fun n => decide (starterOf n games = Side.B)) = games / 2 := by
  have hiff : ∀ n : ℕ, starterOf n games = Side.A ↔ 2 * n < games := by
    intro n
    rw [starterOf_eq]
    by_cases h : 2 * n < games
    · simp [h]
    · simp [h]
  have hA : (List.range games).countP (fun n => decide (starterOf n games = Side.A)) =
      (games + 1) / 2 := by
    rw [List.countP_congr (q := fun n => decide (n < (games + 1) / 2))
      (fun n _ => by
        simp only [decide_eq_true_eq]
        rw [hiff n]
        omega)]
    rw [countP_range_lt]
    omega
  refine ⟨?_, hiff, hA, ?_⟩
  · intro s h
    have := compare_foldl_sum G pa pb games fuel g0 (List.range games) (0, 0, 0) s h
    rw [this, List.length_range]
    simp
  · have hnot : (List.range games).countP (fun n => decide (starterOf n games = Side.B)) =
        (List.range games).countP (fun n => !(decide (starterOf n games = Side.A))) := by
      refine List.countP_congr (fun n _ => ?_)
      cases hs : starterOf n games <;> simp [hs]
    have hadd := countP_not_add (fun n => decide (starterOf n games = Side.A)) (List.range games)
    rw [hnot]
    rw [List.length_range] at hadd
    omega

/-- One stub comparison game: with fuel 1 from state 0, the single move
reaches the terminal state of value 1, so whichever side starts, moves last
and wins. -/
theorem stub_compare_game (t : Side) :
    compareGameLoop stubGame (fun _ : ℕ => ()) (fun _ : ℕ => ()) 1 t 0 = some (some t) := by
  show compareGameLoop stubGame (fun _ : ℕ => ()) (fun _ : ℕ => ()) (0 + 1) t 0 = some (some t)
  unfold compareGameLoop
  norm_num [stubGame]

/-- Evaluation of a stub compare run: three games, the starter always wins;
starters are A, A, B, so the score is (2, 0, 1). -/
theorem stub_compare_run :
    compareRun stubGame (fun _ : ℕ => ()) (fun _ : ℕ => ()) 3 1 0 = some (2, 0, 1) := by
  have h0 : starterOf 0 3 = Side.A := by rw [starterOf_eq]; norm_num
  have h1 : starterOf 1 3 = Side.A := by rw [starterOf_eq]; norm_num
  have h2 : starterOf 2 3 = Side.B := by rw [starterOf_eq]; norm_num
  show (List.range 3).foldl _ (some (0, 0, 0)) = some (2, 0, 1)
  rw [show List.range 3 = [0, 1, 2] from rfl]
  simp only [List.foldl_cons, List.foldl_nil, h0, h1, h2, stub_compare_game]
  rfl

/-- Witness for C6 at a concrete terminating stub run of three games. -/
theorem C6_compare_witness :
    ((2, 0, 1) : ℕ × ℕ × ℕ).1 + ((2, 0, 1) : ℕ × ℕ × ℕ).2.1 + ((2, 0, 1) : ℕ × ℕ × ℕ).2.2 = 3 :=
  (C6_compare stubGame (fun _ : ℕ => ()) (fun _ : ℕ => ()) 3 1 0).1 (2, 0, 1) stub_compare_run

/-- src/value_train.py line 119: the annealed exploration rate
`_epsilon = 0.8*epsilon*2**(-iteration/32) + 0.2*epsilon`, embedded over
the reals (the float arithmetic of the source idealised as exact real
arithmetic; the convergence clause of the claim is only meaningful in this
idealisation). -/
noncomputable def epsSchedule (eps0 : ℝ) (i : ℕ) : ℝ :=
  0.8 * eps0 * (2 : ℝ) ^ (-(i : ℝ) / 32) + 0.2 * eps0

theorem epsSchedule_eq_pow (eps0 : ℝ) (i : ℕ) :
    epsSchedule eps0 i = 0.8 * eps0 * ((2 : ℝ) ^ (-(1 : ℝ) / 32)) ^ i + 0.2 * eps0 := by
  unfold epsSchedule
  rw [show -(i : ℝ) / 32 = (-(1 : ℝ) / 32) * ((i : ℕ) : ℝ) by ring]
  rw [Real.rpow_mul (by norm_num), Real.rpow_natCast]

theorem epsDecay_pos : (0 : ℝ) < (2 : ℝ) ^ (-(1 : ℝ) / 32) :=
  Real.rpow_pos_of_pos (by norm_num) _

theorem epsDecay_lt_one : (2 : ℝ) ^ (-(1 : ℝ) / 32) < 1 :=
  Real.rpow_lt_one_of_one_lt_of_neg (by norm_num) (by norm_num)

/-- Claim C7: the annealed exploration rate of src/value_train.py line 119
is 0.8*eps0*2^(-i/32) + 0.2*eps0 at iteration i; at iteration 0 it equals
eps0 exactly, for eps0 > 0 it is non-increasing in i and always at least
0.2*eps0, and it converges (monotonically, by the preceding clause) to
0.2*eps0 as i grows. -/
theorem C7_eps_schedule :
    (∀ eps0 : ℝ, epsSchedule eps0 0 = eps0) ∧
    (∀ eps0 : ℝ, 0 < eps0 → ∀ i j : ℕ, i ≤ j → epsSchedule eps0 j ≤ epsSchedule eps0 i) ∧
    (∀ eps0 : ℝ, 0 < eps0 → ∀ i : ℕ, 0.2 * eps0 ≤ epsSchedule eps0 i) ∧
    (∀ eps0 : ℝ,
      Filter.Tendsto (fun i : ℕ => epsSchedule eps0 i) Filter.atTop (nhds (0.2 * eps0))) := by
  refine ⟨?_, ?_, ?_, ?_⟩
  · intro eps0
    rw [epsSchedule_eq_pow, pow_zero]
    ring_nf
  · intro eps0 h i j hij
    rw [epsSchedule_eq_pow, epsSchedule_eq_pow]
    have hpow := pow_le_pow_of_le_one (le_of_lt epsDecay_pos) (le_of_lt epsDecay_lt_one) hij
    have h08 : (0 : ℝ) ≤ 0.8 * eps0 := by linarith
    exact add_le_add_right (mul_le_mul_of_nonneg_left hpow h08) _
  · intro eps0 h i
    rw [epsSchedule_eq_pow]
    have hp : (0 : ℝ) < ((2 : ℝ) ^ (-(1 : ℝ) / 32)) ^ i := pow_pos epsDecay_pos i
    nlinarith
  · intro eps0
    have h := tendsto_pow_atTop_nhds_zero_of_lt_one (le_of_lt epsDecay_pos) epsDecay_lt_one
    have h2 := (h.const_mul (0.8 * eps0)).add_const (0.2 * eps0)
    rw [mul_zero, zero_add] at h2
    exact h2.congr (fun i => (epsSchedule_eq_pow eps0 i).symm)

/-- Witness for C7 at the concrete initial exploration rate 1. -/
theorem C7_eps_schedule_witness :
    epsSchedule 1 0 = 1 ∧ epsSchedule 1 3 ≤ epsSchedule 1 2 ∧
    (0.2 : ℝ) * 1 ≤ epsSchedule 1 5 ∧
    Filter.Tendsto (fun i : ℕ => epsSchedule 1 i) Filter.atTop (nhds (0.2 * 1)) :=
  ⟨C7_eps_schedule.1 1,
   C7_eps_schedule.2.1 1 one_pos 2 3 (by norm_num),
   C7_eps_schedule.2.2.1 1 one_pos 5,
   C7_eps_schedule.2.2.2 1⟩

/-- src/train.py lines 66-70 (src/value_train.py lines 41-45):
`batches(data, n)` yields the contiguous chunks data[i:i+n] for
i = 0, n, 2n, ... with the final chunk possibly shorter; the tensor
packaging of each chunk is kept as the raw chunk of pairs.  Python raises
ValueError when n = 0 (train is only ever called with the positive default
batch_size 128); that unreachable case is embedded as no chunks. -/
def batches {β : Type} : List β → ℕ → List (List β)
  | [], _ => []
  | _ :: _, 0 => []
  | x :: xs, m + 1 =>
    (x :: xs).take (m + 1) :: batches ((x :: xs).drop (m + 1)) (m + 1)
termination_by data _ => data.length
decreasing_by
  simp only [List.length_drop, List.length_cons]
  omega

theorem batches_nil {β : Type} (n : ℕ) : batches ([] : List β) n = [] := by
  rw [batches]

theorem batches_cons_eq {β : Type} (data : List β) (n : ℕ) (h1 : data ≠ []) (h2 : n ≠ 0) :
    batches data n = data.take n :: batches (data.drop n) n := by
  cases data with
  | nil => exact absurd rfl h1
  | cons x xs =>
    cases n with
    | zero => exact absurd rfl h2
    | succ m => rw [batches]

/-- src/train.py lines 72-97: the data-order skeleton of `train`.  The
first component is the buffer list as reordered so far (`random.shuffle`
mutates it in place, once per epoch, embedded as one draw `sh e` from a
stream of reorderings); the trace records one entry per epoch: the chunk
sequence given one gradient update each in training mode (lines 77-84),
and the chunk sequence whose losses are recomputed in inference mode and
averaged (lines 87-97).  Both are `batches` of the same shuffled list,
because the code performs no second shuffle between the two passes. -/
def trainTrace {β : Type} (sh : ℕ → List β → List β) (data : List β) (bs : ℕ) :
    ℕ → List β × List (List (List β) × List (List β))
  | 0 => (data, [])
  | e + 1 =>
    let prev := trainTrace sh data bs e
    let d := sh e prev.1
    (d, prev.2 ++ [(batches d bs, batches d bs)])

/-- Modelled from the spec: the epoch skeleton the claim describes, in
which the reported epoch mean loss is recomputed over an independent
shuffle of the same buffer (a second draw from the reordering stream),
chunked identically. -/
def trainTraceSpec {β : Type} (sh : ℕ → List β → List β) (data : List β) (bs : ℕ) :
    ℕ → List β × List (List (List β) × List (List β))
  | 0 => (data, [])
  | e + 1 =>
    let prev := trainTraceSpec sh data bs e
    let d := sh (2 * e) prev.1
    let d2 := sh (2 * e + 1) d
    (d2, prev.2 ++ [(batches d bs, batches d2 bs)])

/-- A concrete shuffle stream: the first draw leaves the list in place and
every later draw reverses it. -/
def sh8 : ℕ → List ℕ → List ℕ := fun i l => if i = 0 then l else l.reverse

theorem batches_pair_one : batches [0, 1] 1 = [[0], [1]] := by
  rw [batches_cons_eq [0, 1] 1 (by decide) (by decide)]
  rw [show List.drop 1 [0, 1] = [1] from rfl]
  rw [batches_cons_eq [1] 1 (by decide) (by decide)]
  rw [show List.drop 1 [1] = ([] : List ℕ) from rfl, batches_nil]
  rfl

theorem batches_pair_one_rev : batches [1, 0] 1 = [[1], [0]] := by
  rw [batches_cons_eq [1, 0] 1 (by decide) (by decide)]
  rw [show List.drop 1 [1, 0] = [0] from rfl]
  rw [batches_cons_eq [0] 1 (by decide) (by decide)]
  rw [show List.drop 1 [0] = ([] : List ℕ) from rfl, batches_nil]
  rfl

/-- Claim C8, counterexample to the claim as stated.  With the buffer
[0, 1], batch size 1, one epoch, and a shuffle stream whose first draw is
the identity and whose second draw reverses, the code evaluates the epoch
loss over exactly the training-pass chunk order [[0], [1]] (no second
shuffle is performed); the claimed behaviour, which consumes an independent
second shuffle for the evaluation pass, would instead evaluate over
[[1], [0]]. -/
theorem C8_counterexample :
    (trainTrace sh8 [0, 1] 1 1).2 = [([[0], [1]], [[0], [1]])] ∧
    (trainTraceSpec sh8 [0, 1] 1 1).2 = [([[0], [1]], [[1], [0]])] ∧
    (trainTrace sh8 [0, 1] 1 1).2 ≠ (trainTraceSpec sh8 [0, 1] 1 1).2 := by
  have h1 : (trainTrace sh8 [0, 1] 1 1).2 = [([[0], [1]], [[0], [1]])] := by
    show [] ++ [(batches (sh8 0 [0, 1]) 1, batches (sh8 0 [0, 1]) 1)] = _
    rw [show sh8 0 [0, 1] = [0, 1] from rfl, batches_pair_one]
    rfl
  have h2 : (trainTraceSpec sh8 [0, 1] 1 1).2 = [([[0], [1]], [[1], [0]])] := by
    show [] ++ [(batches (sh8 0 [0, 1]) 1, batches (sh8 1 (sh8 0 [0, 1])) 1)] = _
    rw [show sh8 0 [0, 1] = [0, 1] from rfl, show sh8 1 [0, 1] = [1, 0] from rfl,
      batches_pair_one, batches_pair_one_rev]
    rfl
  refine ⟨h1, h2, ?_⟩
  rw [h1, h2]
  decide

theorem batches_flatten {β : Type} (bs : ℕ) (hbs : 1 ≤ bs) :
    ∀ data : List β, (batches data bs).flatten = data := by
  have key : ∀ (N : ℕ) (data : List β), data.length ≤ N → (batches data bs).flatten = data := by
    intro N
    induction N with
    | zero =>
      intro data h
      have hd : data = [] := List.length_eq_zero.mp (by omega)
      rw [hd, batches_nil]
      rfl
    | succ N ih =>
      intro data h
      by_cases hd : data = []
      · rw [hd, batches_nil]
        rfl
      · rw [batches_cons_eq data bs hd (by omega), List.flatten_cons,
          ih (data.drop bs) (by
            rw [List.length_drop]
            have := List.length_pos.mpr hd
            omega),
          List.take_append_drop]
  exact fun data => key data.length data le_rfl

theorem batches_chunk_size {β : Type} (bs : ℕ) (hbs : 1 ≤ bs) :
    ∀ (data : List β) (c : List β), c ∈ batches data bs → c.length ≤ bs ∧ c ≠ [] := by
  have key : ∀ (N : ℕ) (data : List β) (c : List β), data.length ≤ N →
      c ∈ batches data bs → c.length ≤ bs ∧ c ≠ [] := by
    intro N
    induction N with
    | zero =>
      intro data c h hc
      have hd : data = [] := List.length_eq_zero.mp (by omega)
      rw [hd, batches_nil] at hc
      exact absurd hc (by simp)
    | succ N ih =>
      intro data c h hc
      by_cases hd : data = []
      · rw [hd, batches_nil] at hc
        exact absurd hc (by simp)
      · rw [batches_cons_eq data bs hd (by omega)] at hc
        rcases List.mem_cons.mp hc with hc | hc
        · constructor
          · rw [hc, List.length_take]
            omega
          · rw [hc]
            intro hnil
            rcases List.take_eq_nil_iff.mp hnil with h0 | h0
            · omega
            · exact hd h0
        · exact ih (data.drop bs) c (by
            rw [List.length_drop]
            have := List.length_pos.mpr hd
            omega) hc
  exact fun data c => key data.length data c le_rfl

theorem batches_full_chunks {β : Type} (bs : ℕ) (hbs : 1 ≤ bs) :
    ∀ (data : List β) (c : List β), c ∈ (batches data bs).dropLast → c.length = bs := by
  have key : ∀ (N : ℕ) (data : List β) (c : List β), data.length ≤ N →
      c ∈ (batches data bs).dropLast → c.length = bs := by
    intro N
    induction N with
    | zero =>
      intro data c h hc
      have hd : data = [] := List.length_eq_zero.mp (by omega)
      rw [hd, batches_nil] at hc
      exact absurd hc (by simp)
    | succ N ih =>
      intro data c h hc
      by_cases hd : data = []
      · rw [hd, batches_nil] at hc
        exact absurd hc (by simp)
      · rw [batches_cons_eq data bs hd (by omega)] at hc
        by_cases hrest : batches (data.drop bs) bs = []
        · rw [hrest, List.dropLast_single] at hc
          exact absurd hc (by simp)
        · rw [List.dropLast_cons_of_ne_nil hrest] at hc
          have hlong : bs < data.length := by
            by_contra hshort
            have : data.drop bs = [] := by
              apply List.eq_nil_of_length_eq_zero
              rw [List.length_drop]
              omega
            rw [this, batches_nil] at hrest
            exact hrest rfl
          rcases List.mem_cons.mp hc with hc | hc
          · rw [hc, List.length_take]
            omega
          · exact ih (data.drop bs) c (by
              rw [List.length_drop]
              omega) hc
  exact fun data c => key data.length data c le_rfl

theorem trainTrace_entries_eq {β : Type} (sh : ℕ → List β → List β) (data : List β)
    (bs : ℕ) : ∀ (n : ℕ) (p : List (List β) × List (List β)),
      p ∈ (trainTrace sh data bs n).2 → p.2 = p.1 := by
  intro n
  induction n with
  | zero =>
    intro p hp
    exact absurd hp (by simp [trainTrace])
  | succ n ih =>
    intro p hp
    rcases List.mem_append.mp hp with hp | hp
    · exact ih p hp
    · rw [List.mem_singleton.mp hp]

/-- Claim C8 (amended): each epoch of train shuffles the full buffer
exactly once, partitions the shuffled buffer into contiguous chunks of
batch_size with the final chunk possibly shorter (chunks concatenate back
to the buffer, every chunk is nonempty of length at most batch_size, and
every chunk except possibly the last has length exactly batch_size), and
performs one gradient update per chunk; the reported epoch mean loss is
then recomputed in inference mode over the same shuffled order chunked
identically — not over an independent second shuffle. -/
theorem C8_train_epochs {β : Type} :
    (∀ (bs : ℕ) (data : List β), 1 ≤ bs → (batches data bs).flatten = data) ∧
    (∀ (bs : ℕ) (data c : List β), 1 ≤ bs → c ∈ batches data bs →
      c.length ≤ bs ∧ c ≠ []) ∧
    (∀ (bs : ℕ) (data c : List β), 1 ≤ bs → c ∈ (batches data bs).dropLast →
      c.length = bs) ∧
    (∀ (sh : ℕ → List β → List β) (data : List β) (bs n : ℕ)
        (p : List (List β) × List (List β)),
      p ∈ (trainTrace sh data bs n).2 → p.2 = p.1) ∧
    (∀ (sh : ℕ → List β → List β) (data : List β) (bs n : ℕ),
      (trainTrace sh data bs (n + 1)).1 = sh n (trainTrace sh data bs n).1 ∧
      (trainTrace sh data bs (n + 1)).2 = (trainTrace sh data bs n).2 ++
        [(batches (sh n (trainTrace sh data bs n).1) bs,
          batches (sh n (trainTrace sh data bs n).1) bs)]) := by
  refine ⟨?_, ?_, ?_, ?_, ?_⟩
  · intro bs data hbs
    exact batches_flatten bs hbs data
  · intro bs data c hbs hc
    exact batches_chunk_size bs hbs data c hc
  · intro bs data c hbs hc
    exact batches_full_chunks bs hbs data c hc
  · intro sh data bs n p hp
    exact trainTrace_entries_eq sh data bs n p hp
  · intro sh data bs n
    exact ⟨rfl, rfl⟩

/-- Witness for C8 (amended) at concrete buffers and batch sizes. -/
theorem C8_train_epochs_witness :
    (batches [0, 1] 1).flatten = [0, 1] ∧
    (([0] : List ℕ).length ≤ 1 ∧ ([0] : List ℕ) ≠ []) ∧
    ([0] : List ℕ).length = 1 ∧
    (([[0], [1]], [[0], [1]]) : List (List ℕ) × List (List ℕ)).2 =
      (([[0], [1]], [[0], [1]]) : List (List ℕ) × List (List ℕ)).1 :=
  ⟨C8_train_epochs.1 1 [0, 1] (by decide),
   C8_train_epochs.2.1 1 [0, 1] [0] (by decide)
     (by rw [batches_pair_one]; exact List.mem_cons_self _ _),
   C8_train_epochs.2.2.1 1 [0, 1, 2] [0] (by decide)
     (by
       rw [show batches [0, 1, 2] 1 = [[0], [1], [2]] by
         rw [batches_cons_eq [0, 1, 2] 1 (by decide) (by decide),
           show List.drop 1 [0, 1, 2] = [1, 2] from rfl,
           batches_cons_eq [1, 2] 1 (by decide) (by decide),
           show List.drop 1 [1, 2] = [2] from rfl,
           batches_cons_eq [2] 1 (by decide) (by decide),
           show List.drop 1 [2] = ([] : List ℕ) from rfl, batches_nil]
         rfl]
       simp),
   C8_train_epochs.2.2.2.1 sh8 [0, 1] 1 1 ([[0], [1]], [[0], [1]])
     (by
       rw [show (trainTrace sh8 [0, 1] 1 1).2 = [([[0], [1]], [[0], [1]])] by
         show [] ++ [(batches (sh8 0 [0, 1]) 1, batches (sh8 0 [0, 1]) 1)] = _
         rw [show sh8 0 [0, 1] = [0, 1] from rfl, batches_pair_one]
         rfl]
       simp)⟩

/-- src/train.py line 97: the epoch report `sum(losses)/len(losses)`.
Python raises ZeroDivisionError when the length is zero; the fault is
embedded as `none`. -/
def pyDiv (a : ℚ) (b : ℕ) : Option ℚ :=
  if b = 0 then none else some (a / b)

/-- src/train.py lines 87-94: the per-epoch list of chunk losses computed
in inference mode, one entry per chunk of the (shuffled) buffer; the loss
of a chunk is the external model and loss function, abstracted as lossOf. -/
def epochLosses {β : Type} (lossOf : List β → ℚ) (d : List β) (bs : ℕ) : List ℚ :=
  (batches d bs).map lossOf

/-- src/train.py lines 72-97 with the line-97 mean-loss report made
explicit: per epoch, shuffle once, then report the mean of the chunk
losses; an epoch whose loss list is empty divides by zero and the fault
propagates uncaught (`none`), aborting the remaining epochs. -/
def trainReports {β : Type} (sh : ℕ → List β → List β) (lossOf : List β → ℚ)
    (data : List β) (bs : ℕ) : ℕ → Option (List β × List ℚ)
  | 0 => some (data, [])
  | e + 1 =>
    match trainReports sh lossOf data bs e with
    | none => none
    | some dr =>
      let d := sh e dr.1
      match pyDiv (epochLosses lossOf d bs).sum (epochLosses lossOf d bs).length with
      | none => none
      | some r => some (d, dr.2 ++ [r])

/-- Claim C9: calling train with an empty data buffer and epochs >= 1
trains on no example (the buffer has no chunks), leaves the per-epoch loss
list empty, and the mean-loss computation sum(losses)/len(losses) fails
with an uncaught division by zero: no result is returned and the fault
propagates instead of being caught or reported as a distinct error kind. -/
theorem C9_empty_buffer {β : Type} (sh : ℕ → List β → List β) (lossOf : List β → ℚ)
    (bs epochs : ℕ) (hsh : ∀ e, sh e [] = []) (heps : 1 ≤ epochs) :
    batches ([] : List β) bs = [] ∧
    epochLosses lossOf ([] : List β) bs = [] ∧
    trainReports sh lossOf [] bs epochs = none := by
  have hstep : ∀ e : ℕ, trainReports sh lossOf [] bs (e + 1) = none := by
    intro e
    induction e with
    | zero => simp [trainReports, hsh, batches_nil, epochLosses, pyDiv]
    | succ e ih => rw [trainReports, ih]
  obtain ⟨e, rfl⟩ : ∃ e, epochs = e + 1 := ⟨epochs - 1, by omega⟩
  exact ⟨batches_nil bs, by simp [epochLosses, batches_nil], hstep e⟩

/-- Witness for C9 at a concrete shuffle stream, loss function, batch size
and epoch count. -/
theorem C9_empty_buffer_witness :
    batches ([] : List ℕ) 128 = [] ∧
    epochLosses (fun _ : List ℕ => 0) ([] : List ℕ) 128 = [] ∧
    trainReports (fun _ l => l) (fun _ : List ℕ => 0) [] 128 1 = none :=
  C9_empty_buffer (fun _ l => l) (fun _ : List ℕ => 0) 128 1 (fun _ => rfl) (by decide)

/-- The externally visible events of `main` that the seeding claim is
about: the two generator-seeding calls of lines 106-108 of src/train.py,
and the phases that follow them. -/
inductive MainEvent
  | torchManualSeed (s : ℤ)
  | randomSeed (s : ℤ)
  | buildModel
  | selfPlayPhase
  | trainPhase
  | evalPhase
deriving DecidableEq

/-- src/train.py lines 105-108 (src/value_train.py lines 80-83): the
seeding prelude of main.  The guard `if seed:` is Python truthiness: an
absent seed (None) and seed = 0 both skip the branch; a nonzero seed calls
torch.manual_seed(seed) and then random.seed(seed), once each. -/
def seedEvents : Option ℤ → List MainEvent
  | none => []
  | some s =>
    if s ≠ 0 then [MainEvent.torchManualSeed s, MainEvent.randomSeed s] else []

/-- The three phases of one iteration of main (src/train.py lines 141-160:
self-play, fitting, evaluation). -/
def iterationEvents : List MainEvent :=
  [MainEvent.selfPlayPhase, MainEvent.trainPhase, MainEvent.evalPhase]

/-- The event order of main (src/train.py lines 105-160), truncated to the
first `iters` iterations of the unbounded `for iteration in count()` loop:
the seeding prelude, then model building, then the per-iteration phases. -/
def mainEvents (seed : Option ℤ) (iters : ℕ) : List MainEvent :=
  seedEvents seed ++
    MainEvent.buildModel :: (List.range iters).flatMap (fun _ => iterationEvents)

/-- Claim C10: with seed = 0 the seeding branch is skipped (the Python
guard treats 0 as falsy), neither generator is seeded, and the run behaves
exactly as if no seed had been supplied; for every nonzero seed both
generators are seeded exactly once, before the model is built and before
any phase executes. -/
theorem C10_seed_guard :
    (∀ iters : ℕ, mainEvents (some 0) iters = mainEvents none iters) ∧
    seedEvents (some 0) = [] ∧
    (∀ s : ℤ, s ≠ 0 → ∀ iters : ℕ,
      mainEvents (some s) iters =
        MainEvent.torchManualSeed s :: MainEvent.randomSeed s :: mainEvents none iters ∧
      (mainEvents (some s) iters).count (MainEvent.torchManualSeed s) = 1 ∧
      (mainEvents (some s) iters).count (MainEvent.randomSeed s) = 1) := by
  have hbase : ∀ (s : ℤ) (iters : ℕ),
      MainEvent.torchManualSeed s ∉ mainEvents none iters ∧
      MainEvent.randomSeed s ∉ mainEvents none iters := by
    intro s iters
    constructor <;>
      simp [mainEvents, seedEvents, iterationEvents, List.mem_flatMap]
  refine ⟨?_, ?_, ?_⟩
  · intro iters
    simp [mainEvents, seedEvents]
  · simp [seedEvents]
  · intro s hs iters
    have hse : seedEvents (some s) = [MainEvent.torchManualSeed s, MainEvent.randomSeed s] := by
      show (if s ≠ 0 then [MainEvent.torchManualSeed s, MainEvent.randomSeed s] else []) = _
      rw [if_pos hs]
    have hstruct : mainEvents (some s) iters =
        MainEvent.torchManualSeed s :: MainEvent.randomSeed s :: mainEvents none iters := by
      show seedEvents (some s) ++ _ = _
      rw [hse]
      rfl
    have hc1 : (mainEvents none iters).count (MainEvent.torchManualSeed s) = 0 :=
      List.count_eq_zero.mpr (hbase s iters).1
    have hc2 : (mainEvents none iters).count (MainEvent.randomSeed s) = 0 :=
      List.count_eq_zero.mpr (hbase s iters).2
    refine ⟨hstruct, ?_, ?_⟩
    · rw [hstruct, List.count_cons, List.count_cons, hc1]
      simp
    · rw [hstruct, List.count_cons, List.count_cons, hc2]
      simp

/-- Witness for C10 at the concrete nonzero seed 7 and two iterations. -/
theorem C10_seed_guard_witness :
    mainEvents (some 7) 2 =
      MainEvent.torchManualSeed 7 :: MainEvent.randomSeed 7 :: mainEvents none 2 ∧
    (mainEvents (some 7) 2).count (MainEvent.torchManualSeed 7) = 1 ∧
    (mainEvents (some 7) 2).count (MainEvent.randomSeed 7) = 1 :=
  C10_seed_guard.2.2 7 (by decide) 2

end RL4UT3
